import Mathlib

/-!
Verification development for the EKF-vSLAM estimator of
`rb5_control/src/rb5_vSLAM.py` (class `EKF_vSLAM`).

The estimator keeps a mean vector `mu` of length `3 + 2M`, a covariance
matrix `cov` of matching square dimension, and an ordered list `observed`
of landmark (AprilTag) identifiers.  `predict_EKF` adds the control twist
to the pose block and injects process noise; `update_EKF` walks an
observation batch, registering unseen identifiers (growing `mu`/`cov`)
and applying one EKF correction per observation.

The embedding works over exact real arithmetic: numpy arrays become
`Fin`-indexed vectors and `Matrix`; `np.linalg.inv` becomes Mathlib's
matrix inverse; `math.atan2 y x` becomes the argument of the complex
number `x + y i`; the Python float remainder `%` (floor based, divisor
positive) becomes `pymod`.
-/

noncomputable section

open Matrix

/-- Two-argument arctangent, as `math.atan2 y x`: the argument of the
complex number `x + y i`, with values in `(-pi, pi]`. -/
def atan2 (y x : ℝ) : ℝ := Complex.arg ((x : ℂ) + (y : ℂ) * Complex.I)

/-- Python float remainder `x % y` (floor convention, exact for `y > 0`). -/
def pymod (x y : ℝ) : ℝ := x - y * ⌊x / y⌋

/-- Bearing wrap of line 174: `(d + pi) % (2 pi) - pi`. -/
def wrap (d : ℝ) : ℝ := pymod (d + Real.pi) (2 * Real.pi) - Real.pi

/-- Noise parameters fixed at construction (lines 30-31):
`var_System_noise` (shared x/y variance, theta variance) and
`var_Sensor_noise` (range variance, bearing variance). -/
structure EKFParams where
  varSys : ℝ × ℝ
  varSen : ℝ × ℝ

/-- Belief state of `EKF_vSLAM`: number `M` of registered landmarks, the
ordered identifier list `observed`, the mean `mu` of length `3 + 2M` and
the `(3+2M) × (3+2M)` covariance `cov`. -/
structure EKFState where
  M : ℕ
  observed : List ℤ
  mu : Fin (3 + 2 * M) → ℝ
  cov : Matrix (Fin (3 + 2 * M)) (Fin (3 + 2 * M)) ℝ

/-- Total read of `mu` at a natural index (0 outside the state). -/
def muN (s : EKFState) (k : ℕ) : ℝ :=
  if h : k < 3 + 2 * s.M then s.mu ⟨k, h⟩ else 0

/-- Total read of `cov` at natural indices (0 outside the state). -/
def covN (s : EKFState) (k l : ℕ) : ℝ :=
  if h : k < 3 + 2 * s.M ∧ l < 3 + 2 * s.M then s.cov ⟨k, h.1⟩ ⟨l, h.2⟩ else 0

/-- Constructor (lines 30-37): pose `(0.61, 0.61, 0.0)` for the generated
path, zero covariance, no landmarks registered. -/
def initEKF : EKFState :=
  { M := 0, observed := [], mu := ![0.61, 0.61, 0.0], cov := 0 }

/-- Control matrix `G` of lines 65-66: identity on the pose block. -/
def Gmat (n : ℕ) : Matrix (Fin n) (Fin n) ℝ :=
  fun i j => if (i : ℕ) = (j : ℕ) ∧ (i : ℕ) < 3 then 1 else 0

/-- Control vector `u` of lines 68-69: the twist in the pose block. -/
def uVec (n : ℕ) (twist : Fin 3 → ℝ) : Fin n → ℝ :=
  fun i => if h : (i : ℕ) < 3 then twist ⟨i, h⟩ else 0

/-- Process noise `Qt` of lines 71-72: system-noise variances on the
pose diagonal (x and y share the first variance, theta the second). -/
def QtMat (p : EKFParams) (n : ℕ) : Matrix (Fin n) (Fin n) ℝ :=
  fun i j =>
    if (i : ℕ) = (j : ℕ) ∧ ((i : ℕ) = 0 ∨ (i : ℕ) = 1) then p.varSys.1
    else if (i : ℕ) = (j : ℕ) ∧ (i : ℕ) = 2 then p.varSys.2
    else 0

/-- `predict_EKF` (lines 39-81): `F` is the identity;
`mu <- F mu + G u`, `cov <- F cov F^T + Qt`. -/
def predict_EKF (p : EKFParams) (twist : Fin 3 → ℝ) (s : EKFState) : EKFState :=
  { M := s.M, observed := s.observed,
    mu := (1 : Matrix (Fin (3 + 2 * s.M)) (Fin (3 + 2 * s.M)) ℝ).mulVec s.mu +
      (Gmat (3 + 2 * s.M)).mulVec (uVec (3 + 2 * s.M) twist),
    cov := (1 : Matrix (Fin (3 + 2 * s.M)) (Fin (3 + 2 * s.M)) ℝ) * s.cov *
      (1 : Matrix (Fin (3 + 2 * s.M)) (Fin (3 + 2 * s.M)) ℝ)ᵀ + QtMat p (3 + 2 * s.M) }

/-- Landmark registration (lines 114-126): append the identifier, stack
the initial world-frame landmark position onto `mu`, grow `cov` by a
`diag(1e6, 1e6)` block with zero cross terms. -/
def registerLandmark (pose : ℝ × ℝ × ℝ) (s : EKFState) (r phi : ℝ) (tagID : ℤ) :
    EKFState :=
  { M := s.M + 1,
    observed := s.observed ++ [tagID],
    mu := fun i =>
      if h : (i : ℕ) < 3 + 2 * s.M then s.mu ⟨i, h⟩
      else if (i : ℕ) = 3 + 2 * s.M then pose.1 + r * Real.cos (phi + pose.2.2)
      else pose.2.1 + r * Real.sin (phi + pose.2.2),
    cov := fun i j =>
      if hi : (i : ℕ) < 3 + 2 * s.M then
        (if hj : (j : ℕ) < 3 + 2 * s.M then s.cov ⟨i, hi⟩ ⟨j, hj⟩ else 0)
      else if (j : ℕ) < 3 + 2 * s.M then 0
      else if (i : ℕ) = (j : ℕ) then 1000000 else 0 }

/-- Index of a registered identifier in the state vector (line 129). -/
def idxOf (s : EKFState) (tagID : ℤ) : ℕ := 3 + 2 * s.observed.indexOf tagID

/-- `delta` of line 140: landmark estimate minus pose estimate. -/
def deltaOf (pose : ℝ × ℝ × ℝ) (s : EKFState) (tagID : ℤ) : Fin 2 → ℝ :=
  ![muN s (idxOf s tagID) - pose.1, muN s (idxOf s tagID + 1) - pose.2.1]

/-- `q` of line 142: squared norm of `delta`. -/
def qOf (pose : ℝ × ℝ × ℝ) (s : EKFState) (tagID : ℤ) : ℝ :=
  deltaOf pose s tagID 0 * deltaOf pose s tagID 0 +
    deltaOf pose s tagID 1 * deltaOf pose s tagID 1

/-- Predicted measurement `z_tilde` of line 144. -/
def zTildeOf (pose : ℝ × ℝ × ℝ) (s : EKFState) (tagID : ℤ) : Fin 2 → ℝ :=
  ![Real.sqrt (qOf pose s tagID),
    atan2 (deltaOf pose s tagID 1) (deltaOf pose s tagID 0) - pose.2.2]

/-- Selection matrix `Fxj` of lines 147-149. -/
def FxjOf (s : EKFState) (tagID : ℤ) : Matrix (Fin 5) (Fin (3 + 2 * s.M)) ℝ :=
  fun a b =>
    if (a : ℕ) < 3 ∧ (a : ℕ) = (b : ℕ) then 1
    else if (a : ℕ) = 3 ∧ (b : ℕ) = idxOf s tagID then 1
    else if (a : ℕ) = 4 ∧ (b : ℕ) = idxOf s tagID + 1 then 1
    else 0

/-- Measurement Jacobian `J` of lines 152-155. -/
def Jof (pose : ℝ × ℝ × ℝ) (s : EKFState) (tagID : ℤ) : Matrix (Fin 2) (Fin 5) ℝ :=
  (1 / qOf pose s tagID) •
    !![-(Real.sqrt (qOf pose s tagID)) * deltaOf pose s tagID 0,
       -(Real.sqrt (qOf pose s tagID)) * deltaOf pose s tagID 1, 0,
       Real.sqrt (qOf pose s tagID) * deltaOf pose s tagID 0,
       Real.sqrt (qOf pose s tagID) * deltaOf pose s tagID 1;
       deltaOf pose s tagID 1, -(deltaOf pose s tagID 0), -(qOf pose s tagID),
       -(deltaOf pose s tagID 1), deltaOf pose s tagID 0]

/-- `H = J Fxj` of line 160. -/
def Hof (pose : ℝ × ℝ × ℝ) (s : EKFState) (tagID : ℤ) :
    Matrix (Fin 2) (Fin (3 + 2 * s.M)) ℝ :=
  Jof pose s tagID * FxjOf s tagID

/-- Sensor noise matrix `Rt` of line 163. -/
def RtOf (p : EKFParams) : Matrix (Fin 2) (Fin 2) ℝ :=
  !![p.varSen.1, 0; 0, p.varSen.2]

/-- Innovation covariance `S = H cov H^T + Rt` (inside line 167). -/
def Sof (p : EKFParams) (pose : ℝ × ℝ × ℝ) (s : EKFState) (tagID : ℤ) :
    Matrix (Fin 2) (Fin 2) ℝ :=
  Hof pose s tagID * s.cov * (Hof pose s tagID)ᵀ + RtOf p

/-- Kalman gain `K = cov H^T S⁻¹` of line 167. -/
def Kof (p : EKFParams) (pose : ℝ × ℝ × ℝ) (s : EKFState) (tagID : ℤ) :
    Matrix (Fin (3 + 2 * s.M)) (Fin 2) ℝ :=
  s.cov * (Hof pose s tagID)ᵀ * (Sof p pose s tagID)⁻¹

/-- Innovation `delta_z` of lines 170-174, bearing component wrapped. -/
def dzOf (pose : ℝ × ℝ × ℝ) (s : EKFState) (r phi : ℝ) (tagID : ℤ) : Fin 2 → ℝ :=
  ![r - zTildeOf pose s tagID 0, wrap (phi - zTildeOf pose s tagID 1)]

/-- Correction step for one observation (lines 128-179), applied to the
(possibly just grown) state: `mu <- mu + K dz`, `cov <- (I - K H) cov`. -/
def correctObs (p : EKFParams) (pose : ℝ × ℝ × ℝ) (s : EKFState) (r phi : ℝ)
    (tagID : ℤ) : EKFState :=
  { M := s.M, observed := s.observed,
    mu := s.mu + (Kof p pose s tagID).mulVec (dzOf pose s r phi tagID),
    cov := (1 - Kof p pose s tagID * Hof pose s tagID) * s.cov }

/-- One loop iteration of `update_EKF` (lines 109-179): compute range
`r = ‖(posX, posY)‖` and bearing `phi = atan2(posX, posY)` (lines
111-112), register the identifier if unseen, then correct. -/
def updateObs (p : EKFParams) (pose : ℝ × ℝ × ℝ) (s : EKFState)
    (ob : ℝ × ℝ × ℤ) : EKFState :=
  correctObs p pose
    (if ob.2.2 ∈ s.observed then s
     else registerLandmark pose s (Real.sqrt (ob.1 ^ 2 + ob.2.1 ^ 2))
       (atan2 ob.1 ob.2.1) ob.2.2)
    (Real.sqrt (ob.1 ^ 2 + ob.2.1 ^ 2)) (atan2 ob.1 ob.2.1) ob.2.2

/-- The observation loop of `update_EKF`: the pose argument is fixed for
the whole batch (the source unpacks `x, y, theta` once, line 100). -/
def updateLoop (p : EKFParams) (pose : ℝ × ℝ × ℝ) :
    EKFState → List (ℝ × ℝ × ℤ) → EKFState
  | s, [] => s
  | s, ob :: rest => updateLoop p pose (updateObs p pose s ob) rest

/-- `update_EKF` (lines 83-181): unpack the pose estimate once, then fold
the correction loop over the batch. -/
def update_EKF (p : EKFParams) (s : EKFState) (landmarks : List (ℝ × ℝ × ℤ)) :
    EKFState :=
  updateLoop p (muN s 0, muN s 1, muN s 2) s landmarks

/-- A call made to the estimator by the control loop. -/
inductive EKFCall : Type
  | pred (twist : Fin 3 → ℝ) : EKFCall
  | upd (landmarks : List (ℝ × ℝ × ℤ)) : EKFCall

/-- Run a sequence of predict/update calls. -/
def runCalls (p : EKFParams) : EKFState → List EKFCall → EKFState
  | s, [] => s
  | s, EKFCall.pred v :: rest => runCalls p (predict_EKF p v s) rest
  | s, EKFCall.upd b :: rest => runCalls p (update_EKF p s b) rest

/-- Noise parameters used when the estimator is built in `main`
(line 260): `var_System_noise=[0.1, 0.01]`, `var_Sensor_noise=[0.01, 0.01]`. -/
abbrev pMain : EKFParams := ⟨(0.1, 0.01), (0.01, 0.01)⟩

/-- The registry length matches `M` (so the state dimension is
`3 + 2 * observed.length`), and the covariance is symmetric. -/
def WF (s : EKFState) : Prop := s.observed.length = s.M ∧ s.cov.IsSymm

/-- Example state with one registered landmark (id 1 at estimate (1,0)),
identity covariance, pose estimate at the origin. -/
abbrev sEx : EKFState := { M := 1, observed := [1], mu := ![0, 0, 0, 1, 0], cov := 1 }

/-- State with one registered landmark (id 3) whose position estimate
coincides with the pose estimate: everything at the origin. -/
abbrev s7 : EKFState := { M := 1, observed := [3], mu := ![0, 0, 0, 0, 0], cov := 1 }

/-- State with one registered landmark (id 1 at estimate (1,0)) and zero
covariance, pose estimate at the origin. -/
abbrev sW3 : EKFState := { M := 1, observed := [1], mu := ![0, 0, 0, 1, 0], cov := 0 }

/-- Second definition of the correction, written from the specification
text of section 4.3 (steps 1 and 3-9) for a single already-registered
landmark, to be compared with `update_EKF`: range/bearing from the local
offset, `delta` and `q` from the pose and landmark estimates,
`z_tilde = (sqrt q, atan2(delta_y, delta_x) - theta)`, `H = J Fxj`,
`S = H cov H^T + Rt`, `K = cov H^T S⁻¹`, innovation with wrapped bearing,
`mu + K dz` and `(I - K H) cov`. -/
def specSingleUpdate (p : EKFParams) (s : EKFState) (dx dz : ℝ) (tid : ℤ) :
    EKFState :=
  let x := muN s 0
  let y := muN s 1
  let th := muN s 2
  let r := Real.sqrt (dx ^ 2 + dz ^ 2)
  let phi := atan2 dx dz
  let j := s.observed.indexOf tid
  let idx := 3 + 2 * j
  let dlt : Fin 2 → ℝ := ![muN s idx - x, muN s (idx + 1) - y]
  let q := dlt 0 * dlt 0 + dlt 1 * dlt 1
  let zt : Fin 2 → ℝ := ![Real.sqrt q, atan2 (dlt 1) (dlt 0) - th]
  let Fxj : Matrix (Fin 5) (Fin (3 + 2 * s.M)) ℝ := fun a b =>
    if (a : ℕ) < 3 ∧ (a : ℕ) = (b : ℕ) then 1
    else if (a : ℕ) = 3 ∧ (b : ℕ) = idx then 1
    else if (a : ℕ) = 4 ∧ (b : ℕ) = idx + 1 then 1
    else 0
  let J : Matrix (Fin 2) (Fin 5) ℝ :=
    (1 / q) • !![-(Real.sqrt q) * dlt 0, -(Real.sqrt q) * dlt 1, 0,
                 Real.sqrt q * dlt 0, Real.sqrt q * dlt 1;
                 dlt 1, -(dlt 0), -q, -(dlt 1), dlt 0]
  let H := J * Fxj
  let Rt : Matrix (Fin 2) (Fin 2) ℝ := !![p.varSen.1, 0; 0, p.varSen.2]
  let S := H * s.cov * Hᵀ + Rt
  let K := s.cov * Hᵀ * S⁻¹
  let dzv : Fin 2 → ℝ := ![r - zt 0, wrap (phi - zt 1)]
  { M := s.M, observed := s.observed,
    mu := s.mu + K.mulVec dzv,
    cov := (1 - K * H) * s.cov }

/-- Second definition of the batch update, written from the
specification sentence for C2: each observation is processed with the
pose re-read from the just-updated mean, instead of the pose unpacked
once at entry. -/
def updateSeqFresh (p : EKFParams) : EKFState → List (ℝ × ℝ × ℤ) → EKFState
  | s, [] => s
  | s, ob :: rest =>
      updateSeqFresh p (updateObs p (muN s 0, muN s 1, muN s 2) s ob) rest

/-- Noise parameters with unit variances, used for the batch example. -/
abbrev pEx : EKFParams := ⟨(1, 1), (1, 1)⟩

/-! ### Properties of the bearing wrap -/

lemma pymod_eq_fract (x y : ℝ) (hy : y ≠ 0) : pymod x y = y * Int.fract (x / y) := by
  unfold pymod Int.fract
  rw [mul_sub, mul_div_cancel₀ x hy]

lemma pymod_mem_Ico (x y : ℝ) (hy : 0 < y) : pymod x y ∈ Set.Ico 0 y := by
  rw [pymod_eq_fract x y hy.ne']
  constructor
  · exact mul_nonneg hy.le (Int.fract_nonneg _)
  · calc y * Int.fract (x / y) < y * 1 :=
          mul_lt_mul_of_pos_left (Int.fract_lt_one _) hy
      _ = y := mul_one y

lemma pymod_add_int_mul (x y : ℝ) (k : ℤ) : pymod (x + y * k) y = pymod x y := by
  by_cases hy : y = 0
  · simp [pymod, hy]
  · unfold pymod
    have hdiv : (x + y * k) / y = x / y + k := by
      field_simp
      ring
    rw [hdiv, Int.floor_add_int]
    push_cast
    ring

lemma wrap_mem_Ico (d : ℝ) : wrap d ∈ Set.Ico (-Real.pi) Real.pi := by
  have h := pymod_mem_Ico (d + Real.pi) (2 * Real.pi) (by positivity)
  rw [Set.mem_Ico] at h ⊢
  unfold wrap
  exact ⟨by linarith [h.1], by linarith [h.2]⟩

lemma wrap_add_two_pi_int (d : ℝ) (k : ℤ) : wrap (d + 2 * Real.pi * k) = wrap d := by
  unfold wrap
  rw [show d + 2 * Real.pi * k + Real.pi = (d + Real.pi) + (2 * Real.pi) * k by ring,
    pymod_add_int_mul]

lemma wrap_zero : wrap 0 = 0 := by
  unfold wrap pymod
  rw [show (0:ℝ) + Real.pi = Real.pi by ring]
  have hdiv : Real.pi / (2 * Real.pi) = 1 / 2 := by
    rw [div_eq_iff (by positivity : (2:ℝ) * Real.pi ≠ 0)]
    ring
  rw [hdiv, show ⌊(1:ℝ)/2⌋ = 0 by rw [Int.floor_eq_zero_iff]; constructor <;> norm_num]
  simp

/-- C6 counterexample: at bearings `a = pi`, `b = 0` the wrapped residual
is `-pi`, which is not in the claimed interval `(-pi, pi]`. -/
theorem wrap_pi_not_mem_Ioc : ¬ wrap (Real.pi - 0) ∈ Set.Ioc (-Real.pi) Real.pi := by
  have hw : wrap (Real.pi - 0) = -Real.pi := by
    unfold wrap pymod
    rw [show Real.pi - 0 + Real.pi = 2 * Real.pi by ring,
      div_self (by positivity : (2:ℝ) * Real.pi ≠ 0), Int.floor_one]
    push_cast
    ring
  rw [hw]
  simp [Set.mem_Ioc]

/-- C6 (amended): the bearing residual wrap of line 174 maps every real
difference into `[-pi, pi)` (not `(-pi, pi]`), and is invariant under
adding integer multiples of `2 pi` to either input bearing. -/
theorem wrap_bearing_range_and_period (a b : ℝ) (k m : ℤ) :
    wrap (a - b) ∈ Set.Ico (-Real.pi) Real.pi ∧
    wrap ((a + 2 * Real.pi * k) - b) = wrap (a - b) ∧
    wrap (a - (b + 2 * Real.pi * m)) = wrap (a - b) := by
  refine ⟨wrap_mem_Ico _, ?_, ?_⟩
  · rw [show (a + 2 * Real.pi * k) - b = (a - b) + 2 * Real.pi * k by ring,
      wrap_add_two_pi_int]
  · rw [show a - (b + 2 * Real.pi * m) = (a - b) + 2 * Real.pi * (-m : ℤ) by push_cast; ring,
      wrap_add_two_pi_int]

/-! ### The prediction step -/

lemma predict_effects_aux (p : EKFParams) (v : Fin 3 → ℝ) (s : EKFState) :
    (predict_EKF p v s).observed = s.observed ∧
    (predict_EKF p v s).M = s.M ∧
    (∀ i : Fin (3 + 2 * s.M), (predict_EKF p v s).mu i =
      s.mu i + (if h : (i : ℕ) < 3 then v ⟨i, h⟩ else 0)) ∧
    (∀ i j : Fin (3 + 2 * s.M), (predict_EKF p v s).cov i j =
      s.cov i j + (if (i : ℕ) = (j : ℕ) ∧ ((i : ℕ) = 0 ∨ (i : ℕ) = 1) then p.varSys.1
        else if (i : ℕ) = (j : ℕ) ∧ (i : ℕ) = 2 then p.varSys.2 else 0)) := by
  refine ⟨rfl, rfl, ?_, ?_⟩
  · intro i
    simp only [predict_EKF]
    rw [Pi.add_apply, Matrix.one_mulVec]
    congr 1
    show ∑ j, Gmat (3 + 2 * s.M) i j * uVec (3 + 2 * s.M) v j = _
    rw [Finset.sum_eq_single i]
    · by_cases h3 : (i : ℕ) < 3 <;> simp [Gmat, uVec, h3]
    · intro b _ hb
      have hval : ¬ ((i : ℕ) = (b : ℕ)) := by
        simpa [Fin.val_eq_val] using (Ne.symm hb)
      simp [Gmat, hval]
    · intro hi
      exact absurd (Finset.mem_univ i) hi
  · intro i j
    simp only [predict_EKF]
    rw [Matrix.transpose_one, Matrix.mul_one, Matrix.one_mul, Matrix.add_apply]
    rfl

/-- C5: `predict_EKF` adds the twist to the first three entries of `mu`,
adds the system-noise variances to the entries `(0,0)`, `(1,1)` (first
variance) and `(2,2)` (second variance) of `cov`, and leaves everything
else — in particular every landmark entry of `mu` and every landmark
row and column of `cov` — unchanged. -/
theorem predict_EKF_effects (p : EKFParams) (v : Fin 3 → ℝ) (s : EKFState) :
    (predict_EKF p v s).observed = s.observed ∧
    (predict_EKF p v s).M = s.M ∧
    (∀ i : Fin (3 + 2 * s.M), (predict_EKF p v s).mu i =
      s.mu i + (if h : (i : ℕ) < 3 then v ⟨i, h⟩ else 0)) ∧
    (∀ i j : Fin (3 + 2 * s.M), (predict_EKF p v s).cov i j =
      s.cov i j + (if (i : ℕ) = (j : ℕ) ∧ ((i : ℕ) = 0 ∨ (i : ℕ) = 1) then p.varSys.1
        else if (i : ℕ) = (j : ℕ) ∧ (i : ℕ) = 2 then p.varSys.2 else 0)) :=
  predict_effects_aux p v s

/-- C9 counterexample: with the noise parameters the repository actually
constructs the estimator with, `predict_EKF` on the zero twist does not
leave the covariance at zero — the `(0,0)` entry becomes `0.1`. -/
theorem predict_init_cov_ne_zero :
    (predict_EKF pMain ![0,0,0] initEKF).cov ≠ 0 := by
  intro h
  have h00 := congrFun (congrFun h ⟨0, by norm_num [predict_EKF, initEKF]⟩)
    ⟨0, by norm_num [predict_EKF, initEKF]⟩
  simp [predict_EKF, initEKF, QtMat, Matrix.transpose_one] at h00
  norm_num at h00

/-- C9 (amended): from the constructed state, `predict_EKF` on the zero
twist keeps `mu = [0.61, 0.61, 0.0]` and yields
`cov = diag(varSys.1, varSys.1, varSys.2)` — which is the zero matrix
only when the system-noise variances are zero. -/
theorem predict_init_characterization (p : EKFParams) :
    muN (predict_EKF p ![0,0,0] initEKF) 0 = 0.61 ∧
    muN (predict_EKF p ![0,0,0] initEKF) 1 = 0.61 ∧
    muN (predict_EKF p ![0,0,0] initEKF) 2 = 0 ∧
    (∀ i j : Fin 3, (predict_EKF p ![0,0,0] initEKF).cov i j =
      if (i : ℕ) = (j : ℕ) ∧ ((i : ℕ) = 0 ∨ (i : ℕ) = 1) then p.varSys.1
      else if (i : ℕ) = (j : ℕ) ∧ (i : ℕ) = 2 then p.varSys.2 else 0) := by
  have hb0 : (0:ℕ) < 3 + 2 * (predict_EKF p ![0,0,0] initEKF).M := by
    norm_num [predict_EKF, initEKF]
  have hb1 : (1:ℕ) < 3 + 2 * (predict_EKF p ![0,0,0] initEKF).M := by
    norm_num [predict_EKF, initEKF]
  have hb2 : (2:ℕ) < 3 + 2 * (predict_EKF p ![0,0,0] initEKF).M := by
    norm_num [predict_EKF, initEKF]
  refine ⟨?_, ?_, ?_, ?_⟩
  · rw [muN, dif_pos hb0, (predict_effects_aux p ![0,0,0] initEKF).2.2.1 ⟨0, hb0⟩,
      show initEKF.mu ⟨0, hb0⟩ = (0.61 : ℝ) from rfl]
    norm_num
  · rw [muN, dif_pos hb1, (predict_effects_aux p ![0,0,0] initEKF).2.2.1 ⟨1, hb1⟩,
      show initEKF.mu ⟨1, hb1⟩ = (0.61 : ℝ) from rfl]
    norm_num
  · rw [muN, dif_pos hb2, (predict_effects_aux p ![0,0,0] initEKF).2.2.1 ⟨2, hb2⟩,
      show initEKF.mu ⟨2, hb2⟩ = (0.0 : ℝ) from rfl]
    norm_num
  · intro i j
    have h := (predict_effects_aux p ![0,0,0] initEKF).2.2.2 i j
    rw [h, show initEKF.cov i j = (0:ℝ) from rfl]
    ring

/-! ### Empty batches -/

/-- C10: an `update_EKF` call with an empty observation batch returns the
belief and the landmark registry unchanged. -/
theorem update_EKF_empty_noop (p : EKFParams) (s : EKFState) :
    update_EKF p s [] = s := rfl

/-! ### Well-formedness: dimension bookkeeping and covariance symmetry -/

lemma wf_initEKF : WF initEKF := by
  refine ⟨rfl, ?_⟩
  show (0 : Matrix _ _ ℝ)ᵀ = 0
  exact Matrix.transpose_zero

lemma QtMat_isSymm (p : EKFParams) (n : ℕ) : (QtMat p n).IsSymm := by
  show (QtMat p n)ᵀ = QtMat p n
  funext i j
  rw [Matrix.transpose_apply]
  unfold QtMat
  split_ifs <;> first | rfl | omega

lemma predict_wf (p : EKFParams) (v : Fin 3 → ℝ) (s : EKFState) (hs : WF s) :
    WF (predict_EKF p v s) := by
  obtain ⟨hlen, hsym⟩ := hs
  refine ⟨hlen, ?_⟩
  have hcov : (predict_EKF p v s).cov = s.cov + QtMat p (3 + 2 * s.M) := by
    simp only [predict_EKF]
    rw [Matrix.transpose_one, Matrix.mul_one, Matrix.one_mul]
  rw [hcov]
  exact hsym.add (QtMat_isSymm p _)

lemma register_wf (pose : ℝ × ℝ × ℝ) (s : EKFState) (r phi : ℝ) (t : ℤ)
    (hs : WF s) : WF (registerLandmark pose s r phi t) := by
  obtain ⟨hlen, hsym⟩ := hs
  constructor
  · simp [registerLandmark, hlen]
  · show _ᵀ = _
    funext i j
    simp only [registerLandmark, Matrix.transpose_apply]
    by_cases hi : (i : ℕ) < 3 + 2 * s.M <;> by_cases hj : (j : ℕ) < 3 + 2 * s.M
    · simp only [dif_pos hi, dif_pos hj]
      exact hsym.apply ⟨i, hi⟩ ⟨j, hj⟩
    · simp only [dif_pos hi, dif_neg hj, if_pos hi]
    · simp only [dif_neg hi, dif_pos hj, if_pos hj]
    · simp only [dif_neg hi, dif_neg hj, if_neg hi, if_neg hj]
      by_cases hij : (i : ℕ) = (j : ℕ)
      · rw [if_pos hij, if_pos hij.symm]
      · rw [if_neg hij, if_neg (fun h => hij h.symm)]

lemma kalman_step_symm {n : ℕ} (cov : Matrix (Fin n) (Fin n) ℝ)
    (H : Matrix (Fin 2) (Fin n) ℝ) (Rt : Matrix (Fin 2) (Fin 2) ℝ)
    (hc : cov.IsSymm) (hr : Rt.IsSymm) :
    ((1 - cov * Hᵀ * (H * cov * Hᵀ + Rt)⁻¹ * H) * cov).IsSymm := by
  have hc2 : covᵀ = cov := hc
  have hr2 : Rtᵀ = Rt := hr
  have hS : (H * cov * Hᵀ + Rt)ᵀ = H * cov * Hᵀ + Rt := by
    rw [Matrix.transpose_add, Matrix.transpose_mul, Matrix.transpose_mul,
      Matrix.transpose_transpose, hc2, hr2, Matrix.mul_assoc]
  have hSi : ((H * cov * Hᵀ + Rt)⁻¹)ᵀ = (H * cov * Hᵀ + Rt)⁻¹ := by
    rw [Matrix.transpose_nonsing_inv, hS]
  have expand : (1 - cov * Hᵀ * (H * cov * Hᵀ + Rt)⁻¹ * H) * cov =
      cov - cov * (Hᵀ * ((H * cov * Hᵀ + Rt)⁻¹ * (H * cov))) := by
    rw [Matrix.sub_mul, Matrix.one_mul]
    simp only [Matrix.mul_assoc]
  show _ᵀ = _
  rw [expand, Matrix.transpose_sub, hc2]
  congr 1
  rw [Matrix.transpose_mul, Matrix.transpose_mul, Matrix.transpose_mul,
    Matrix.transpose_mul, Matrix.transpose_transpose, hc2, hSi]
  simp only [Matrix.mul_assoc]

lemma RtOf_isSymm (p : EKFParams) : (RtOf p).IsSymm := by
  show _ᵀ = _
  funext i j
  rw [Matrix.transpose_apply]
  fin_cases i <;> fin_cases j <;> simp [RtOf]

lemma correct_wf (p : EKFParams) (pose : ℝ × ℝ × ℝ) (s : EKFState) (r phi : ℝ)
    (t : ℤ) (hs : WF s) : WF (correctObs p pose s r phi t) := by
  obtain ⟨hlen, hsym⟩ := hs
  refine ⟨hlen, ?_⟩
  show ((1 - s.cov * (Hof pose s t)ᵀ *
      (Hof pose s t * s.cov * (Hof pose s t)ᵀ + RtOf p)⁻¹ * Hof pose s t) *
      s.cov).IsSymm
  exact kalman_step_symm s.cov (Hof pose s t) (RtOf p) hsym (RtOf_isSymm p)

lemma updateObs_wf (p : EKFParams) (pose : ℝ × ℝ × ℝ) (s : EKFState)
    (ob : ℝ × ℝ × ℤ) (hs : WF s) : WF (updateObs p pose s ob) := by
  unfold updateObs
  by_cases h : ob.2.2 ∈ s.observed
  · rw [if_pos h]
    exact correct_wf _ _ _ _ _ _ hs
  · rw [if_neg h]
    exact correct_wf _ _ _ _ _ _ (register_wf _ _ _ _ _ hs)

lemma updateLoop_wf (p : EKFParams) (pose : ℝ × ℝ × ℝ) :
    ∀ (batch : List (ℝ × ℝ × ℤ)) (s : EKFState), WF s → WF (updateLoop p pose s batch)
  | [], s, hs => hs
  | ob :: rest, s, hs =>
      updateLoop_wf p pose rest (updateObs p pose s ob) (updateObs_wf p pose s ob hs)

lemma update_wf (p : EKFParams) (s : EKFState) (batch : List (ℝ × ℝ × ℤ))
    (hs : WF s) : WF (update_EKF p s batch) :=
  updateLoop_wf p _ batch s hs

lemma runCalls_wf (p : EKFParams) :
    ∀ (calls : List EKFCall) (s : EKFState), WF s → WF (runCalls p s calls)
  | [], s, hs => hs
  | EKFCall.pred v :: rest, s, hs =>
      runCalls_wf p rest (predict_EKF p v s) (predict_wf p v s hs)
  | EKFCall.upd b :: rest, s, hs =>
      runCalls_wf p rest (update_EKF p s b) (update_wf p s b hs)

/-- C1: after any sequence of predict/update calls from the constructed
state, the registered-identifier count equals `M` (hence `mu` has length
`3 + 2M` and `cov` is square of the same dimension, by the shape of the
state), and `cov` is symmetric in exact arithmetic. -/
theorem runCalls_dim_and_symm (p : EKFParams) (calls : List EKFCall) :
    (runCalls p initEKF calls).observed.length = (runCalls p initEKF calls).M ∧
    ((runCalls p initEKF calls).cov).IsSymm :=
  runCalls_wf p calls initEKF wf_initEKF

/-! ### Registry evolution -/

lemma muN_eq (s : EKFState) (k : ℕ) (h : k < 3 + 2 * s.M) :
    muN s k = s.mu ⟨k, h⟩ := dif_pos h

lemma covN_eq (s : EKFState) (k l : ℕ) (hk : k < 3 + 2 * s.M)
    (hl : l < 3 + 2 * s.M) : covN s k l = s.cov ⟨k, hk⟩ ⟨l, hl⟩ := dif_pos ⟨hk, hl⟩

lemma updateObs_observed (p : EKFParams) (pose : ℝ × ℝ × ℝ) (s : EKFState)
    (ob : ℝ × ℝ × ℤ) :
    (updateObs p pose s ob).observed =
      if ob.2.2 ∈ s.observed then s.observed else s.observed ++ [ob.2.2] := by
  by_cases h : ob.2.2 ∈ s.observed
  · show (if ob.2.2 ∈ s.observed then s else _).observed = _
    rw [if_pos h, if_pos h]
  · show (if ob.2.2 ∈ s.observed then s else _).observed = _
    rw [if_neg h, if_neg h]
    rfl

lemma updateObs_M (p : EKFParams) (pose : ℝ × ℝ × ℝ) (s : EKFState)
    (ob : ℝ × ℝ × ℤ) :
    (updateObs p pose s ob).M = if ob.2.2 ∈ s.observed then s.M else s.M + 1 := by
  by_cases h : ob.2.2 ∈ s.observed
  · show (if ob.2.2 ∈ s.observed then s else _).M = _
    rw [if_pos h, if_pos h]
  · show (if ob.2.2 ∈ s.observed then s else _).M = _
    rw [if_neg h, if_neg h]
    rfl

lemma updateLoop_observed_extends (p : EKFParams) (pose : ℝ × ℝ × ℝ) :
    ∀ (batch : List (ℝ × ℝ × ℤ)) (s : EKFState),
      ∃ t, (updateLoop p pose s batch).observed = s.observed ++ t
  | [], s => ⟨[], (List.append_nil _).symm⟩
  | ob :: rest, s => by
      obtain ⟨t2, ht2⟩ := updateLoop_observed_extends p pose rest (updateObs p pose s ob)
      rw [show updateLoop p pose s (ob :: rest) =
        updateLoop p pose (updateObs p pose s ob) rest from rfl, ht2,
        updateObs_observed]
      by_cases h : ob.2.2 ∈ s.observed
      · rw [if_pos h]
        exact ⟨t2, rfl⟩
      · rw [if_neg h]
        exact ⟨[ob.2.2] ++ t2, List.append_assoc _ _ _⟩

lemma runCalls_observed_extends (p : EKFParams) :
    ∀ (calls : List EKFCall) (s : EKFState),
      ∃ t, (runCalls p s calls).observed = s.observed ++ t
  | [], s => ⟨[], (List.append_nil _).symm⟩
  | EKFCall.pred v :: rest, s => by
      obtain ⟨t, ht⟩ := runCalls_observed_extends p rest (predict_EKF p v s)
      exact ⟨t, by rw [show runCalls p s (EKFCall.pred v :: rest) =
        runCalls p (predict_EKF p v s) rest from rfl, ht]; rfl⟩
  | EKFCall.upd b :: rest, s => by
      obtain ⟨t1, ht1⟩ := updateLoop_observed_extends p _ b s
      obtain ⟨t2, ht2⟩ := runCalls_observed_extends p rest (update_EKF p s b)
      refine ⟨t1 ++ t2, ?_⟩
      rw [show runCalls p s (EKFCall.upd b :: rest) =
        runCalls p (update_EKF p s b) rest from rfl, ht2,
        show (update_EKF p s b).observed = s.observed ++ t1 from ht1,
        List.append_assoc]

/-- C8: once an identifier is registered, a further observation of it
does not grow the state (`M` and the registry are unchanged by that
observation), and its registration index is stable under any further
sequence of predict/update calls, during which it stays registered. -/
theorem registered_id_stable (p : EKFParams) (pose : ℝ × ℝ × ℝ) (s : EKFState)
    (px py : ℝ) (tid : ℤ) (h : tid ∈ s.observed) :
    (updateObs p pose s (px, py, tid)).M = s.M ∧
    (updateObs p pose s (px, py, tid)).observed = s.observed ∧
    ∀ calls : List EKFCall,
      (runCalls p s calls).observed.indexOf tid = s.observed.indexOf tid ∧
      tid ∈ (runCalls p s calls).observed := by
  refine ⟨?_, ?_, ?_⟩
  · rw [updateObs_M, if_pos h]
  · rw [updateObs_observed, if_pos h]
  · intro calls
    obtain ⟨t, ht⟩ := runCalls_observed_extends p calls s
    rw [ht]
    exact ⟨List.indexOf_append_of_mem h, List.mem_append_left t h⟩

theorem registered_id_stable_witness :
    ((1:ℤ) ∈ sEx.observed) ∧
    (updateObs pMain (0, 0, 0) sEx (0, 2, 1)).M = sEx.M ∧
    (runCalls pMain sEx [EKFCall.upd [(0, 2, 1)]]).observed.indexOf 1 =
      sEx.observed.indexOf 1 := by
  have h : (1:ℤ) ∈ sEx.observed := by simp
  exact ⟨h, (registered_id_stable pMain (0, 0, 0) sEx 0 2 1 h).1,
    ((registered_id_stable pMain (0, 0, 0) sEx 0 2 1 h).2.2
      [EKFCall.upd [(0, 2, 1)]]).1⟩

/-! ### Landmark registration -/

lemma register_muN_old (pose : ℝ × ℝ × ℝ) (s : EKFState) (r phi : ℝ) (tid : ℤ)
    {k : ℕ} (hk : k < 3 + 2 * s.M) :
    muN (registerLandmark pose s r phi tid) k = muN s k := by
  have pf : k < 3 + 2 * (registerLandmark pose s r phi tid).M := by
    change k < 3 + 2 * (s.M + 1)
    omega
  rw [muN_eq _ k pf, muN_eq s k hk]
  exact dif_pos hk

lemma register_muN_newx (pose : ℝ × ℝ × ℝ) (s : EKFState) (r phi : ℝ) (tid : ℤ) :
    muN (registerLandmark pose s r phi tid) (3 + 2 * s.M) =
      pose.1 + r * Real.cos (phi + pose.2.2) := by
  have pf : 3 + 2 * s.M < 3 + 2 * (registerLandmark pose s r phi tid).M := by
    change _ < 3 + 2 * (s.M + 1)
    omega
  rw [muN_eq _ _ pf]
  exact (dif_neg (lt_irrefl _)).trans (if_pos rfl)

lemma register_muN_newy (pose : ℝ × ℝ × ℝ) (s : EKFState) (r phi : ℝ) (tid : ℤ) :
    muN (registerLandmark pose s r phi tid) (3 + 2 * s.M + 1) =
      pose.2.1 + r * Real.sin (phi + pose.2.2) := by
  have pf : 3 + 2 * s.M + 1 < 3 + 2 * (registerLandmark pose s r phi tid).M := by
    change _ < 3 + 2 * (s.M + 1)
    omega
  rw [muN_eq _ _ pf]
  exact (dif_neg (show ¬ (3 + 2 * s.M + 1 < 3 + 2 * s.M) by omega)).trans
    (if_neg (show ¬ (3 + 2 * s.M + 1 = 3 + 2 * s.M) by omega))

/-- C4: an unseen identifier is appended at index `M` (the registry size
before insertion); `mu` keeps its old entries and gains the initial
world-frame landmark position computed from the supplied pose and the
range/bearing; `cov` keeps its old block, the new diagonal block is
`diag(1e6, 1e6)` and every cross term with a pre-existing dimension is
zero.  Inside `update_EKF`, an observation with an unseen identifier is
routed through exactly this growth before its correction. -/
theorem register_new_landmark (p : EKFParams) (pose : ℝ × ℝ × ℝ) (s : EKFState)
    (px py r phi : ℝ) (tid : ℤ) (h : tid ∉ s.observed) :
    (registerLandmark pose s r phi tid).observed = s.observed ++ [tid] ∧
    (registerLandmark pose s r phi tid).observed.indexOf tid = s.observed.length ∧
    (registerLandmark pose s r phi tid).M = s.M + 1 ∧
    (∀ k, k < 3 + 2 * s.M → muN (registerLandmark pose s r phi tid) k = muN s k) ∧
    muN (registerLandmark pose s r phi tid) (3 + 2 * s.M) =
      pose.1 + r * Real.cos (phi + pose.2.2) ∧
    muN (registerLandmark pose s r phi tid) (3 + 2 * s.M + 1) =
      pose.2.1 + r * Real.sin (phi + pose.2.2) ∧
    covN (registerLandmark pose s r phi tid) (3 + 2 * s.M) (3 + 2 * s.M) = 1000000 ∧
    covN (registerLandmark pose s r phi tid) (3 + 2 * s.M + 1) (3 + 2 * s.M + 1) =
      1000000 ∧
    covN (registerLandmark pose s r phi tid) (3 + 2 * s.M) (3 + 2 * s.M + 1) = 0 ∧
    covN (registerLandmark pose s r phi tid) (3 + 2 * s.M + 1) (3 + 2 * s.M) = 0 ∧
    (∀ k l, k < 3 + 2 * s.M → l < 3 + 2 * s.M →
      covN (registerLandmark pose s r phi tid) k l = covN s k l) ∧
    (∀ k, k < 3 + 2 * s.M →
      covN (registerLandmark pose s r phi tid) k (3 + 2 * s.M) = 0 ∧
      covN (registerLandmark pose s r phi tid) (3 + 2 * s.M) k = 0 ∧
      covN (registerLandmark pose s r phi tid) k (3 + 2 * s.M + 1) = 0 ∧
      covN (registerLandmark pose s r phi tid) (3 + 2 * s.M + 1) k = 0) ∧
    updateObs p pose s (px, py, tid) =
      correctObs p pose
        (registerLandmark pose s (Real.sqrt (px ^ 2 + py ^ 2)) (atan2 px py) tid)
        (Real.sqrt (px ^ 2 + py ^ 2)) (atan2 px py) tid := by
  have hM : (registerLandmark pose s r phi tid).M = s.M + 1 := rfl
  have hnn : ¬ (3 + 2 * s.M < 3 + 2 * s.M) := by omega
  have hn1 : ¬ (3 + 2 * s.M + 1 < 3 + 2 * s.M) := by omega
  have hne1 : ¬ (3 + 2 * s.M = 3 + 2 * s.M + 1) := by omega
  have hne2 : ¬ (3 + 2 * s.M + 1 = 3 + 2 * s.M) := by omega
  refine ⟨rfl, ?_, rfl, ?_, register_muN_newx pose s r phi tid,
    register_muN_newy pose s r phi tid, ?_, ?_, ?_, ?_, ?_, ?_, ?_⟩
  · show (s.observed ++ [tid]).indexOf tid = s.observed.length
    rw [List.indexOf_append_of_not_mem h]
    simp
  · intro k hk
    exact register_muN_old pose s r phi tid hk
  · rw [covN_eq _ _ _ (by rw [hM]; omega) (by rw [hM]; omega)]
    exact (dif_neg hnn).trans ((if_neg hnn).trans (if_pos rfl))
  · rw [covN_eq _ _ _ (by rw [hM]; omega) (by rw [hM]; omega)]
    exact (dif_neg hn1).trans ((if_neg hn1).trans (if_pos rfl))
  · rw [covN_eq _ _ _ (by rw [hM]; omega) (by rw [hM]; omega)]
    exact (dif_neg hnn).trans ((if_neg hn1).trans (if_neg hne1))
  · rw [covN_eq _ _ _ (by rw [hM]; omega) (by rw [hM]; omega)]
    exact (dif_neg hn1).trans ((if_neg hnn).trans (if_neg hne2))
  · intro k l hk hl
    rw [covN_eq _ _ _ (by rw [hM]; omega) (by rw [hM]; omega), covN_eq s k l hk hl]
    exact (dif_pos hk).trans (dif_pos hl)
  · intro k hk
    refine ⟨?_, ?_, ?_, ?_⟩
    · rw [covN_eq _ _ _ (by rw [hM]; omega) (by rw [hM]; omega)]
      exact (dif_pos hk).trans (dif_neg hnn)
    · rw [covN_eq _ _ _ (by rw [hM]; omega) (by rw [hM]; omega)]
      exact (dif_neg hnn).trans (if_pos hk)
    · rw [covN_eq _ _ _ (by rw [hM]; omega) (by rw [hM]; omega)]
      exact (dif_pos hk).trans (dif_neg hn1)
    · rw [covN_eq _ _ _ (by rw [hM]; omega) (by rw [hM]; omega)]
      exact (dif_neg hn1).trans (if_pos hk)
  · show correctObs p pose (if tid ∈ s.observed then s else _) _ _ _ = _
    rw [if_neg h]

/-! ### Degenerate geometry: q = 0 -/

lemma deltaOf_eval (pose : ℝ × ℝ × ℝ) (s : EKFState) (tid : ℤ) :
    deltaOf pose s tid 0 = muN s (idxOf s tid) - pose.1 ∧
    deltaOf pose s tid 1 = muN s (idxOf s tid + 1) - pose.2.1 := ⟨rfl, rfl⟩

lemma qOf_eval (pose : ℝ × ℝ × ℝ) (s : EKFState) (tid : ℤ) :
    qOf pose s tid =
      (muN s (idxOf s tid) - pose.1) * (muN s (idxOf s tid) - pose.1) +
      (muN s (idxOf s tid + 1) - pose.2.1) * (muN s (idxOf s tid + 1) - pose.2.1) := rfl

lemma zTildeOf_eval (pose : ℝ × ℝ × ℝ) (s : EKFState) (tid : ℤ) :
    zTildeOf pose s tid 0 = Real.sqrt (qOf pose s tid) ∧
    zTildeOf pose s tid 1 =
      atan2 (deltaOf pose s tid 1) (deltaOf pose s tid 0) - pose.2.2 := ⟨rfl, rfl⟩

lemma dzOf_eval (pose : ℝ × ℝ × ℝ) (s : EKFState) (r phi : ℝ) (tid : ℤ) :
    dzOf pose s r phi tid 0 = r - zTildeOf pose s tid 0 ∧
    dzOf pose s r phi tid 1 = wrap (phi - zTildeOf pose s tid 1) := ⟨rfl, rfl⟩

/-- C7 (evaluation at the failing input): with the landmark estimate
coincident with the pose estimate, the squared distance `q` computed by
the update step is exactly `0`, and `updateObs` still routes the
observation through the correction formulas built from `1/q` — the code
has no guard, no skip and no error report for this case. -/
theorem q_zero_unguarded :
    qOf (0, 0, 0) s7 3 = 0 ∧
    updateObs pMain (0, 0, 0) s7 (1, 0, 3) =
      correctObs pMain (0, 0, 0) s7 (Real.sqrt (1 ^ 2 + 0 ^ 2)) (atan2 1 0) 3 := by
  constructor
  · have hidx : idxOf s7 3 = 3 := by
      show 3 + 2 * ([3] : List ℤ).indexOf 3 = 3
      rw [List.indexOf_cons_self]
    rw [qOf_eval, hidx]
    rw [show muN s7 3 = (0:ℝ) from rfl, show muN s7 4 = (0:ℝ) from rfl]
    norm_num
  · show correctObs pMain (0, 0, 0) (if (3:ℤ) ∈ s7.observed then s7 else _) _ _ _ = _
    rw [if_pos (show (3:ℤ) ∈ s7.observed by simp)]

/-! ### The single-observation update against the specification -/

/-- C3: a one-observation `update_EKF` call on an already-registered
landmark, with nonzero `q` and invertible innovation covariance, returns
exactly the belief prescribed by the specification formulas. -/
theorem update_single_registered (p : EKFParams) (s : EKFState) (dx dz : ℝ)
    (tid : ℤ) (hmem : tid ∈ s.observed)
    (hq : qOf (muN s 0, muN s 1, muN s 2) s tid ≠ 0)
    (hS : IsUnit (Sof p (muN s 0, muN s 1, muN s 2) s tid)) :
    update_EKF p s [(dx, dz, tid)] = specSingleUpdate p s dx dz tid := by
  show updateObs p (muN s 0, muN s 1, muN s 2) s (dx, dz, tid) =
    specSingleUpdate p s dx dz tid
  unfold updateObs
  split_ifs with hcond
  · rfl
  · exact absurd hmem hcond

theorem update_single_registered_witness :
    ((1:ℤ) ∈ sW3.observed) ∧
    qOf (muN sW3 0, muN sW3 1, muN sW3 2) sW3 1 ≠ 0 ∧
    IsUnit (Sof pMain (muN sW3 0, muN sW3 1, muN sW3 2) sW3 1) ∧
    update_EKF pMain sW3 [(0, 2, 1)] = specSingleUpdate pMain sW3 0 2 1 := by
  have hmem : (1:ℤ) ∈ sW3.observed := by simp
  have hidx : idxOf sW3 1 = 3 := by
    show 3 + 2 * ([1] : List ℤ).indexOf 1 = 3
    rw [List.indexOf_cons_self]
  have hq : qOf (muN sW3 0, muN sW3 1, muN sW3 2) sW3 1 ≠ 0 := by
    rw [qOf_eval, hidx]
    rw [show muN sW3 3 = (1:ℝ) from rfl, show muN sW3 4 = (0:ℝ) from rfl,
      show muN sW3 0 = (0:ℝ) from rfl, show muN sW3 1 = (0:ℝ) from rfl]
    norm_num
  have hS : IsUnit (Sof pMain (muN sW3 0, muN sW3 1, muN sW3 2) sW3 1) := by
    have hz : Sof pMain (muN sW3 0, muN sW3 1, muN sW3 2) sW3 1 = RtOf pMain := by
      unfold Sof
      rw [show sW3.cov = (0 : Matrix (Fin (3 + 2 * sW3.M)) (Fin (3 + 2 * sW3.M)) ℝ)
        from rfl, Matrix.mul_zero, Matrix.zero_mul, zero_add]
    rw [hz]
    rw [Matrix.isUnit_iff_isUnit_det, Matrix.det_fin_two]
    rw [show RtOf pMain 0 0 = (0.01 : ℝ) from rfl,
      show RtOf pMain 1 1 = (0.01 : ℝ) from rfl,
      show RtOf pMain 0 1 = (0 : ℝ) from rfl,
      show RtOf pMain 1 0 = (0 : ℝ) from rfl]
    exact isUnit_iff_ne_zero.mpr (by norm_num)
  exact ⟨hmem, hq, hS, update_single_registered pMain sW3 0 2 1 hmem hq hS⟩

/-! ### Batch updates and the pose used inside a batch -/

lemma atan2_zero_pos (x : ℝ) (hx : 0 < x) : atan2 0 x = 0 := by
  unfold atan2
  rw [Complex.ofReal_zero, zero_mul, add_zero]
  exact Complex.arg_ofReal_of_nonneg hx.le

lemma sqrt_zero_sq_two : Real.sqrt ((0:ℝ) ^ 2 + 2 ^ 2) = 2 := by
  rw [show ((0:ℝ) ^ 2 + 2 ^ 2) = 2 ^ 2 by norm_num]
  exact Real.sqrt_sq (by norm_num)

lemma sqrt_four : Real.sqrt (4:ℝ) = 2 := by
  rw [show (4:ℝ) = 2 ^ 2 by norm_num]
  exact Real.sqrt_sq (by norm_num)

lemma correct_muN (p : EKFParams) (pose : ℝ × ℝ × ℝ) (s : EKFState) (r phi : ℝ)
    (t : ℤ) {k : ℕ} (hk : k < 3 + 2 * s.M) :
    muN (correctObs p pose s r phi t) k =
      s.mu ⟨k, hk⟩ + (Kof p pose s t).mulVec (dzOf pose s r phi t) ⟨k, hk⟩ := by
  rw [muN_eq _ k (show k < 3 + 2 * (correctObs p pose s r phi t).M from hk)]
  rfl

lemma ex_idx : idxOf sEx 1 = 3 := by
  show 3 + 2 * ([1] : List ℤ).indexOf 1 = 3
  rw [List.indexOf_cons_self]

lemma ex_delta0 : deltaOf (0, 0, 0) sEx 1 0 = 1 := by
  rw [(deltaOf_eval _ _ _).1, ex_idx, show muN sEx 3 = (1:ℝ) from rfl]
  norm_num

lemma ex_delta1 : deltaOf (0, 0, 0) sEx 1 1 = 0 := by
  rw [(deltaOf_eval _ _ _).2, ex_idx, show muN sEx 4 = (0:ℝ) from rfl]
  norm_num

lemma ex_q : qOf (0, 0, 0) sEx 1 = 1 := by
  unfold qOf
  rw [ex_delta0, ex_delta1]
  norm_num

lemma ex_Fxj : FxjOf sEx 1 = 1 := by
  funext a b
  simp only [FxjOf, ex_idx, Matrix.one_apply]
  fin_cases a <;> fin_cases b <;> simp

lemma ex_J : Jof (0, 0, 0) sEx 1 = !![-1, 0, 0, 1, 0; 0, -1, -1, 0, 1] := by
  funext i j
  simp only [Jof, ex_q, ex_delta0, ex_delta1, Real.sqrt_one]
  fin_cases i <;> fin_cases j <;> simp <;> norm_num

lemma ex_H : Hof (0, 0, 0) sEx 1 = !![-1, 0, 0, 1, 0; 0, -1, -1, 0, 1] := by
  unfold Hof
  rw [ex_Fxj, Matrix.mul_one, ex_J]

lemma ex_Ht : (Hof (0, 0, 0) sEx 1)ᵀ = !![-1, 0; 0, -1; 0, -1; 1, 0; 0, 1] := by
  rw [ex_H]
  funext i j
  fin_cases i <;> fin_cases j <;> simp [Matrix.transpose_apply]

lemma ex_S : Sof pEx (0, 0, 0) sEx 1 = !![3, 0; 0, 4] := by
  unfold Sof
  rw [show sEx.cov = (1 : Matrix (Fin (3 + 2 * sEx.M)) (Fin (3 + 2 * sEx.M)) ℝ)
    from rfl, Matrix.mul_one, ex_Ht, ex_H,
    show RtOf pEx = !![(1:ℝ), 0; 0, 1] from rfl]
  funext i j
  fin_cases i <;> fin_cases j <;>
    simp [Matrix.mul_apply, Fin.sum_univ_five, Matrix.add_apply] <;> norm_num

lemma ex_Sinv : (Sof pEx (0, 0, 0) sEx 1)⁻¹ = !![1/3, 0; 0, 1/4] := by
  rw [ex_S]
  apply Matrix.inv_eq_right_inv
  ext i j
  fin_cases i <;> fin_cases j <;>
    simp [Matrix.mul_apply, Fin.sum_univ_two, Matrix.one_apply] <;> norm_num

lemma ex_dz : dzOf (0, 0, 0) sEx (Real.sqrt ((0:ℝ) ^ 2 + 2 ^ 2)) (atan2 0 2) 1 =
    ![1, 0] := by
  funext i
  fin_cases i
  · rw [show (⟨0, by norm_num⟩ : Fin 2) = 0 from rfl, (dzOf_eval _ _ _ _ _).1,
      (zTildeOf_eval _ _ _).1, ex_q, Real.sqrt_one, sqrt_zero_sq_two]
    norm_num
  · rw [show (⟨1, by norm_num⟩ : Fin 2) = 1 from rfl, (dzOf_eval _ _ _ _ _).2,
      (zTildeOf_eval _ _ _).2, ex_delta0, ex_delta1,
      atan2_zero_pos 2 (by norm_num), atan2_zero_pos 1 (by norm_num)]
    norm_num [wrap_zero]

lemma ex_Kdz : (Kof pEx (0, 0, 0) sEx 1).mulVec
    (dzOf (0, 0, 0) sEx (Real.sqrt ((0:ℝ) ^ 2 + 2 ^ 2)) (atan2 0 2) 1) =
    ![-(1/3), 0, 0, 1/3, 0] := by
  rw [ex_dz]
  rw [show Kof pEx (0, 0, 0) sEx 1 =
    (Hof (0, 0, 0) sEx 1)ᵀ * (Sof pEx (0, 0, 0) sEx 1)⁻¹ from by
      unfold Kof
      rw [show sEx.cov = (1 : Matrix (Fin (3 + 2 * sEx.M)) (Fin (3 + 2 * sEx.M)) ℝ)
        from rfl, Matrix.one_mul]]
  rw [ex_Ht, ex_Sinv]
  funext i
  fin_cases i <;>
    simp [Matrix.mulVec, Matrix.mul_apply, dotProduct, Fin.sum_univ_two] <;>
    norm_num

lemma ex_s1 :
    (updateObs pEx (0, 0, 0) sEx (0, 2, 1)).M = 1 ∧
    (updateObs pEx (0, 0, 0) sEx (0, 2, 1)).observed = [1] ∧
    muN (updateObs pEx (0, 0, 0) sEx (0, 2, 1)) 0 = -(1/3) ∧
    muN (updateObs pEx (0, 0, 0) sEx (0, 2, 1)) 1 = 0 ∧
    muN (updateObs pEx (0, 0, 0) sEx (0, 2, 1)) 2 = 0 := by
  have hred : updateObs pEx (0, 0, 0) sEx (0, 2, 1) =
      correctObs pEx (0, 0, 0) sEx (Real.sqrt ((0:ℝ) ^ 2 + 2 ^ 2)) (atan2 0 2) 1 := by
    unfold updateObs
    split_ifs with h
    · rfl
    · exact absurd (show (1:ℤ) ∈ sEx.observed by simp) h
  rw [hred]
  have pf0 : (0:ℕ) < 3 + 2 * sEx.M := by norm_num
  have pf1 : (1:ℕ) < 3 + 2 * sEx.M := by norm_num
  have pf2 : (2:ℕ) < 3 + 2 * sEx.M := by norm_num
  refine ⟨rfl, rfl, ?_, ?_, ?_⟩
  · rw [correct_muN pEx (0, 0, 0) sEx _ _ 1 pf0,
      congrFun ex_Kdz (⟨0, pf0⟩ : Fin (3 + 2 * sEx.M)),
      show sEx.mu ⟨0, pf0⟩ = (0:ℝ) from rfl,
      show (![-(1/3), 0, 0, 1/3, 0] : Fin 5 → ℝ) ⟨0, pf0⟩ = -(1/3) from rfl]
    norm_num
  · rw [correct_muN pEx (0, 0, 0) sEx _ _ 1 pf1,
      congrFun ex_Kdz (⟨1, pf1⟩ : Fin (3 + 2 * sEx.M)),
      show sEx.mu ⟨1, pf1⟩ = (0:ℝ) from rfl,
      show (![-(1/3), 0, 0, 1/3, 0] : Fin 5 → ℝ) ⟨1, pf1⟩ = 0 from rfl]
    norm_num
  · rw [correct_muN pEx (0, 0, 0) sEx _ _ 1 pf2,
      congrFun ex_Kdz (⟨2, pf2⟩ : Fin (3 + 2 * sEx.M)),
      show sEx.mu ⟨2, pf2⟩ = (0:ℝ) from rfl,
      show (![-(1/3), 0, 0, 1/3, 0] : Fin 5 → ℝ) ⟨2, pf2⟩ = 0 from rfl]
    norm_num

lemma updateObs_new_zero_theta (p : EKFParams) (x y : ℝ) (s : EKFState) (tid : ℤ)
    (hlen : s.observed.length = s.M) (hmem : tid ∉ s.observed) :
    muN (updateObs p (x, y, 0) s (0, 2, tid)) (3 + 2 * s.M) = x + 2 := by
  have hred : updateObs p (x, y, 0) s (0, 2, tid) =
      correctObs p (x, y, 0)
        (registerLandmark (x, y, 0) s (Real.sqrt ((0:ℝ) ^ 2 + 2 ^ 2))
          (atan2 0 2) tid)
        (Real.sqrt ((0:ℝ) ^ 2 + 2 ^ 2)) (atan2 0 2) tid := by
    unfold updateObs
    split_ifs with h
    · exact absurd h hmem
    · rfl
  rw [sqrt_zero_sq_two, atan2_zero_pos 2 (by norm_num)] at hred
  rw [hred]
  have pf : 3 + 2 * s.M < 3 + 2 * (registerLandmark (x, y, 0) s 2 0 tid).M := by
    change 3 + 2 * s.M < 3 + 2 * (s.M + 1)
    omega
  rw [correct_muN p (x, y, 0) _ 2 0 tid pf]
  have hidx2 : idxOf (registerLandmark (x, y, 0) s 2 0 tid) tid = 3 + 2 * s.M := by
    unfold idxOf
    rw [show (registerLandmark (x, y, 0) s 2 0 tid).observed = s.observed ++ [tid]
      from rfl, List.indexOf_append_of_not_mem hmem, List.indexOf_cons_self]
    omega
  have hd0 : deltaOf (x, y, 0) (registerLandmark (x, y, 0) s 2 0 tid) tid 0 = 2 := by
    rw [(deltaOf_eval _ _ _).1, hidx2, register_muN_newx]
    simp [Real.cos_zero]
  have hd1 : deltaOf (x, y, 0) (registerLandmark (x, y, 0) s 2 0 tid) tid 1 = 0 := by
    rw [(deltaOf_eval _ _ _).2, hidx2, register_muN_newy]
    simp [Real.sin_zero]
  have hq4 : qOf (x, y, 0) (registerLandmark (x, y, 0) s 2 0 tid) tid = 4 := by
    unfold qOf
    rw [hd0, hd1]
    norm_num
  have hdz0 : dzOf (x, y, 0) (registerLandmark (x, y, 0) s 2 0 tid) 2 0 tid = 0 := by
    funext i
    fin_cases i
    · rw [show (⟨0, by norm_num⟩ : Fin 2) = 0 from rfl, (dzOf_eval _ _ _ _ _).1,
        (zTildeOf_eval _ _ _).1, hq4, sqrt_four]
      norm_num
    · rw [show (⟨1, by norm_num⟩ : Fin 2) = 1 from rfl, (dzOf_eval _ _ _ _ _).2,
        (zTildeOf_eval _ _ _).2, hd0, hd1, atan2_zero_pos 2 (by norm_num)]
      norm_num [wrap_zero]
  rw [hdz0, Matrix.mulVec_zero]
  have hmux : (registerLandmark (x, y, 0) s 2 0 tid).mu ⟨3 + 2 * s.M, pf⟩ =
      x + 2 * Real.cos (0 + (0:ℝ)) := by
    have h1 := register_muN_newx (x, y, 0) s 2 0 tid
    rw [muN_eq _ _ pf] at h1
    exact h1
  rw [hmux]
  simp [Real.cos_zero]

lemma ex_code_final : muN (update_EKF pEx sEx [(0, 2, 1), (0, 2, 2)]) 5 = 2 := by
  have hpose : ((muN sEx 0, muN sEx 1, muN sEx 2) : ℝ × ℝ × ℝ) =
      ((0:ℝ), (0:ℝ), (0:ℝ)) := by
    rw [show muN sEx 0 = (0:ℝ) from rfl, show muN sEx 1 = (0:ℝ) from rfl,
      show muN sEx 2 = (0:ℝ) from rfl]
  show muN (updateLoop pEx (muN sEx 0, muN sEx 1, muN sEx 2) sEx
    [(0, 2, 1), (0, 2, 2)]) 5 = 2
  rw [hpose]
  show muN (updateObs pEx (0, 0, 0) (updateObs pEx (0, 0, 0) sEx (0, 2, 1))
    (0, 2, 2)) 5 = 2
  have happ := updateObs_new_zero_theta pEx 0 0
    (updateObs pEx (0, 0, 0) sEx (0, 2, 1)) 2
    (by rw [ex_s1.2.1, ex_s1.1]; rfl) (by rw [ex_s1.2.1]; simp)
  rw [ex_s1.1] at happ
  norm_num at happ
  exact happ

lemma ex_spec_final :
    muN (updateSeqFresh pEx sEx [(0, 2, 1), (0, 2, 2)]) 5 = 5/3 := by
  have hpose : ((muN sEx 0, muN sEx 1, muN sEx 2) : ℝ × ℝ × ℝ) =
      ((0:ℝ), (0:ℝ), (0:ℝ)) := by
    rw [show muN sEx 0 = (0:ℝ) from rfl, show muN sEx 1 = (0:ℝ) from rfl,
      show muN sEx 2 = (0:ℝ) from rfl]
  show muN (updateSeqFresh pEx
    (updateObs pEx (muN sEx 0, muN sEx 1, muN sEx 2) sEx (0, 2, 1))
    [(0, 2, 2)]) 5 = 5/3
  rw [hpose]
  show muN (updateObs pEx
    (muN (updateObs pEx (0, 0, 0) sEx (0, 2, 1)) 0,
     muN (updateObs pEx (0, 0, 0) sEx (0, 2, 1)) 1,
     muN (updateObs pEx (0, 0, 0) sEx (0, 2, 1)) 2)
    (updateObs pEx (0, 0, 0) sEx (0, 2, 1)) (0, 2, 2)) 5 = 5/3
  rw [ex_s1.2.2.1, ex_s1.2.2.2.1, ex_s1.2.2.2.2]
  have happ := updateObs_new_zero_theta pEx (-(1/3)) 0
    (updateObs pEx (0, 0, 0) sEx (0, 2, 1)) 2
    (by rw [ex_s1.2.1, ex_s1.1]; rfl) (by rw [ex_s1.2.1]; simp)
  rw [ex_s1.1] at happ
  norm_num at happ ⊢
  exact happ

/-- C2 counterexample: on the two-observation batch
`[(0,2,1), (0,2,2)]` from the state `sEx`, `update_EKF` (which unpacks
`x, y, theta` once, at entry — line 100) initializes the new landmark 2
from the entry pose, giving `mu[5] = 2`; processing with the pose re-read
from the just-updated mean (as the claim states) would give `mu[5] = 5/3`. -/
theorem update_batch_stale_pose_cex :
    muN (update_EKF pEx sEx [(0, 2, 1), (0, 2, 2)]) 5 ≠
      muN (updateSeqFresh pEx sEx [(0, 2, 1), (0, 2, 2)]) 5 := by
  rw [ex_code_final, ex_spec_final]
  norm_num

/-- C2 (amended): within a batch, each observation is corrected against
the mean and covariance as updated by the previous observations of the
same batch (the state is threaded left to right), but the pose triple
`(x, y, theta)` used for `delta`, the predicted measurement and
new-landmark initialization is the one unpacked from `mu` at entry to
the call, not re-read between observations. -/
theorem update_EKF_entry_pose_foldl (p : EKFParams) (s : EKFState)
    (batch : List (ℝ × ℝ × ℤ)) :
    update_EKF p s batch =
      List.foldl (updateObs p (muN s 0, muN s 1, muN s 2)) s batch := by
  show updateLoop p (muN s 0, muN s 1, muN s 2) s batch = _
  generalize (muN s 0, muN s 1, muN s 2) = pose
  induction batch generalizing s with
  | nil => rfl
  | cons ob rest ih =>
      show updateLoop p pose (updateObs p pose s ob) rest =
        List.foldl (updateObs p pose) (updateObs p pose s ob) rest
      exact ih (updateObs p pose s ob)

/-- Witness for C4 at the first-registration scenario: pose `(0,0,0)`,
range `1`, bearing `pi/2`, identifier `7` on the fresh estimator. -/
theorem register_new_landmark_witness :
    ((7:ℤ) ∉ initEKF.observed) ∧
    (registerLandmark (0, 0, 0) initEKF 1 (Real.pi / 2) 7).observed = [7] ∧
    (registerLandmark (0, 0, 0) initEKF 1 (Real.pi / 2) 7).observed.indexOf 7 = 0 ∧
    muN (registerLandmark (0, 0, 0) initEKF 1 (Real.pi / 2) 7) 3 =
      0 + 1 * Real.cos (Real.pi / 2 + 0) ∧
    muN (registerLandmark (0, 0, 0) initEKF 1 (Real.pi / 2) 7) 4 =
      0 + 1 * Real.sin (Real.pi / 2 + 0) ∧
    covN (registerLandmark (0, 0, 0) initEKF 1 (Real.pi / 2) 7) 3 3 = 1000000 := by
  have h : (7:ℤ) ∉ initEKF.observed := List.not_mem_nil 7
  have thm := register_new_landmark pMain (0, 0, 0) initEKF 0 0 1 (Real.pi / 2) 7 h
  exact ⟨h, thm.1, thm.2.1, thm.2.2.2.2.1, thm.2.2.2.2.2.1, thm.2.2.2.2.2.2.1⟩
